import Mathlib

/-!
Verification of the AMS transcription/alignment pipeline
(`services/asr-nemo/app.py` and `services/aeneas/app/exec_aeneas.py`)
against its natural-language specification.

The Python source is shallowly embedded: pure computations become Lean
functions over `Nat`/`Int`/`ℚ`/`String`; calls into external model runtimes
(NeMo transcription, the NFA aligner, the aeneas subprocess, the filesystem)
are passed in as explicit oracle arguments, and the control flow around them
(retry ladders, fallback dispatch, per-chunk loops) is translated directly
from the source.
-/

namespace AMS

/-! ## Devices and model-call outcomes

`torch` device strings are either `"cuda"` or `"cpu"` in this service
(`_compute_devices`, `_load_asr_model`).  A single `asr.transcribe` call can
succeed with a text, raise `torch.cuda.OutOfMemoryError`, or raise some other
exception. -/

inductive Device where
  | cuda
  | cpu
deriving DecidableEq

inductive CallResult where
  | ok (text : String)
  | oom
  | err
deriving DecidableEq

/-! ## Chunked transcription: per-chunk OOM ladder

Embedding of the `try/except torch.cuda.OutOfMemoryError` block of
`_transcribe_chunked` (app.py lines 371-382).  `call batch dev` is the oracle
for one `asr.transcribe([path], batch_size=batch)` invocation with the model
on device `dev`.  The source tries once with `ASR_BATCH`; only a CUDA OOM on
that first call is caught, after which `kwargs["batch_size"]` is set to
`ASR_FALLBACK_BATCH` and `_call()` is invoked again, unguarded, so any
failure of the retry propagates out of the chunk loop. -/

def chunkLadderAttempts (call : Nat → Device → CallResult) (dev : Device)
    (batch fallbackBatch : Nat) : List (Nat × Device) :=
  match call batch dev with
  | .oom => [(batch, dev), (fallbackBatch, dev)]
  | _ => [(batch, dev)]

def chunkLadderResult (call : Nat → Device → CallResult) (dev : Device)
    (batch fallbackBatch : Nat) : Except Unit String :=
  match call batch dev with
  | .ok t => .ok t
  | .err => .error ()
  | .oom =>
    match call fallbackBatch dev with
    | .ok t => .ok t
    | _ => .error ()

/-- A transcription oracle that exhausts accelerator memory on every CUDA
call, at any batch size, but would succeed on the CPU device. -/
def oomOnCudaCall : Nat → Device → CallResult :=
  fun _ dev =>
    match dev with
    | .cuda => .oom
    | .cpu => .ok "recovered"

/-! ## Chunked transcription: per-chunk loop with cleanup

Embedding of the chunk loop of `_transcribe_chunked` (app.py lines 366-399).
`outcome i` is the result of the whole per-chunk ladder for chunk `i`
(`chunkLadderResult` above).  On success the loop appends the text, removes
the chunk's temporary file (`os.remove`, modelled as succeeding with
`ASR_PRECHUNK` enabled) and releases transient accelerator memory
(`gc.collect` / `torch.cuda.empty_cache`), then moves on.  The cleanup lines
are not in a `finally` block: an exception escaping the ladder aborts the
loop before they run for the failing chunk. -/

structure ChunkTrace where
  texts : List String
  cleaned : List Nat
  released : List Nat
deriving DecidableEq

def runChunksLoop (outcome : Nat → Except Unit String) :
    List Nat → ChunkTrace → Except ChunkTrace ChunkTrace
  | [], st => .ok st
  | i :: rest, st =>
    match outcome i with
    | .ok t =>
        runChunksLoop outcome rest
          { texts := st.texts ++ [t]
            cleaned := st.cleaned ++ [i]
            released := st.released ++ [i] }
    | .error _ => .error st

/-- The trace left behind by the chunk loop, whether it finished or aborted. -/
def loopTrace (outcome : Nat → Except Unit String) (chunks : List Nat) : ChunkTrace :=
  match runChunksLoop outcome chunks ⟨[], [], []⟩ with
  | .ok st => st
  | .error st => st

/-- A per-chunk outcome oracle whose every chunk fails (ladder exhausted). -/
def failingOutcome : Nat → Except Unit String := fun _ => .error ()

/-! ## Transcript stitching

Embedding of app.py lines 402-405: `". ".join(t for t in texts if t)`, then
terminal punctuation is appended unless the text already ends with one of
`"."`, `"!"`, `"?"`. -/

/-- Embedding of `full_text.endswith((".", "!", "?"))`: since each alternative is a single
character, this is membership of the last character. -/
def endsWithTerminal (s : String) : Bool :=
  match s.data.getLast? with
  | some c => c = '.' || c = '!' || c = '?'
  | none => false

def stitchTranscript (texts : List String) : String :=
  let full := String.intercalate ". " (texts.filter (fun t => t ≠ ""))
  if full ≠ "" && !endsWithTerminal full then full ++ "." else full

/-! ## Alignment manifest

Embedding of `_write_manifest` (app.py lines 507-511): the manifest file
receives exactly one JSON line `{audio_filepath, text}` with the audio path
resolved to an absolute path.  `_absolute_path` delegates to the host
filesystem (`Path.expanduser().resolve()`), so path resolution is passed in
as an oracle `resolve`. -/

structure ManifestEntry where
  audio_filepath : String
  text : String
deriving DecidableEq

def writeManifest (resolve : String → String) (audioPath text : String) :
    List ManifestEntry :=
  [{ audio_filepath := resolve audioPath, text := text }]

/-- Embedding of the alignment-stage invocations made by the `/align` route
(app.py lines 671-675) together with `_run_nfa` (lines 594-608): the route
runs the chunked first pass, stitches the transcript, and then calls
`_run_nfa` exactly once, handing it the original (resolved) audio path and
the full stitched transcript; `_run_nfa` writes the one-entry manifest into
a fresh per-job scratch directory (`tempfile.mkdtemp`).  Each element of the
returned list is the manifest consumed by one alignment invocation. -/
def alignNfaInvocations (resolve : String → String) (audioPath : String)
    (chunkTexts : List String) : List (List ManifestEntry) :=
  [writeManifest resolve audioPath (stitchTranscript chunkTexts)]

/-! ## NFA invocation strategy

Embedding of `_run_nfa` lines 603-608 (`try` in-process, on any exception
fall back to the subprocess) and of the configuration each tier builds from
its four arguments (`_run_nfa_inproc` lines 513-544, `_run_nfa_cli` lines
546-591).  The two tier implementations are oracles; the dispatch records
which tier was invoked and with which arguments. -/

structure NfaArgs where
  manifestPath : String
  outDir : String
  model : String
  saveAss : Bool
deriving DecidableEq

inductive NfaTier where
  | inproc
  | cli
deriving DecidableEq

def runNfaDispatch (inprocRun cliRun : NfaArgs → Except String Unit)
    (a : NfaArgs) : Except String Unit × List (NfaTier × NfaArgs) :=
  match inprocRun a with
  | .ok _ => (.ok (), [(.inproc, a)])
  | .error _ => (cliRun a, [(.inproc, a), (.cli, a)])

/-- The subset of the aligner configuration the claim compares across the
two tiers. -/
structure NfaInvokeConfig where
  manifestPath : String
  outDir : String
  pretrainedName : String
  outputFormats : List String
deriving DecidableEq

/-- Configuration the in-process tier builds (`AlignmentConfig(...)`,
app.py lines 521-537): `manifest_filepath`, `output_dir`, `pretrained_name`,
and `save_output_file_formats = ["ctm","ass"] if save_ass else ["ctm"]`. -/
def inprocConfig (a : NfaArgs) : NfaInvokeConfig :=
  { manifestPath := a.manifestPath
    outDir := a.outDir
    pretrainedName := a.model
    outputFormats := if a.saveAss then ["ctm", "ass"] else ["ctm"] }

/-- Configuration the subprocess tier builds (hydra overrides, app.py lines
555-579): `manifest_filepath`, `output_dir`, `pretrained_name`, and
`save_output_file_formats` from the same `["ctm","ass"]`/`["ctm"]` choice. -/
def cliConfig (a : NfaArgs) : NfaInvokeConfig :=
  { manifestPath := a.manifestPath
    outDir := a.outDir
    pretrainedName := a.model
    outputFormats := if a.saveAss then ["ctm", "ass"] else ["ctm"] }

/-! ## NFA model selection

Embedding of `_select_nfa_model` (app.py lines 482-505) and the constants it
uses (lines 46-51).  Python's `if request_name:` treats the empty string as
false, so an empty request is never added to the candidate list; the loop
skips empty names and picks the first candidate whose lower-cased name
contains `"ctc"` (`_try_ctc_model` always returns its argument); if no
candidate qualifies, `candidates[0]` is returned with a warning. -/

def NFA_MODEL_NAME : String := "stt_en_fastconformer_ctc_large"

def NFA_MODEL_FALLBACKS : List String :=
  ["stt_en_conformer_ctc_large", "stt_en_fastconformer_ctc_small"]

def listContainsSub (needle : List Char) : List Char → Bool
  | [] => needle.isEmpty
  | c :: rest => needle.isPrefixOf (c :: rest) || listContainsSub needle rest

/-- ASCII lower-casing of one character (the model names involved are
ASCII). -/
def lowerChar (c : Char) : Char :=
  if 'A' ≤ c ∧ c ≤ 'Z' then Char.ofNat (c.toNat + 32) else c

/-- Embedding of the `"ctc" in nm.lower()` test from the source. -/
def containsCtcName (nm : String) : Bool :=
  listContainsSub "ctc".data (nm.data.map lowerChar)

def nfaCandidates (requestName : Option String) (defaultName : String)
    (fallbacks : List String) : List String :=
  (match requestName with
   | some r => if r = "" then [] else [r]
   | none => []) ++ defaultName :: fallbacks

def selectNfaModel (requestName : Option String) (defaultName : String)
    (fallbacks : List String) : String :=
  let candidates := nfaCandidates requestName defaultName fallbacks
  match candidates.find? (fun nm => nm ≠ "" && containsCtcName nm) with
  | some nm => nm
  | none => candidates.headD ""

/-! ## ASR decoding configuration and the beam-size override

Embedding of the decoding configuration installed by `_load_asr_model`
(app.py lines 256-309) and of the request-time override branch of
`_transcribe_chunked` (lines 322-355).  Environment lookups are modelled as
an `AsrEnv` record: `beamSizeEnv` is `int(os.environ["ASR_BEAM_SIZE"])` when
that variable is set (`none` when unset), and similarly for the search type
and fused batch size.  Note the module constant `ASR_BEAM_SIZE` defaults the
variable to `12` (line 34) while both configuration sites default it to `10`
(lines 284 and 336); neither site ever reads the `override_beam` argument,
and the override branch is taken only when `override_beam` is truthy
(non-`None` and non-zero) and differs from the module constant. -/

structure AsrEnv where
  beamSizeEnv : Option Int
  beamSearchEnv : Option String
  fusedBatchEnv : Option Int

/-- Embedding of `ASR_BEAM_SIZE = int(os.getenv("ASR_BEAM_SIZE", "12"))`, app.py line 34. -/
def asrBeamSizeConst (env : AsrEnv) : Int :=
  env.beamSizeEnv.getD 12

structure DecodingCfg where
  strategy : String
  searchType : String
  beamSize : Int
  scoreNorm : Bool
  returnBestHypothesis : Bool
  allowCudaGraphs : Bool
  computeTimestamps : Bool
  preserveAlignments : Bool
  fusedBatchSize : Int
deriving DecidableEq

/-- Decoding configuration installed at model load (app.py lines 256-309). -/
def loadTimeDecodingCfg (env : AsrEnv) : DecodingCfg :=
  { strategy := "beam"
    searchType := env.beamSearchEnv.getD "malsd_batch"
    beamSize := env.beamSizeEnv.getD 10
    scoreNorm := true
    returnBestHypothesis := true
    allowCudaGraphs := true
    computeTimestamps := false
    preserveAlignments := false
    fusedBatchSize := env.fusedBatchEnv.getD 8 }

/-- The override branch of `_transcribe_chunked` (app.py lines 326-352)
deep-copies the current decoding configuration and rewrites it; only
`strategy` is set to a value (`"batch"`) different from the load-time one,
and `beam_size` is again read from the environment, not from the override
argument. -/
def overrideDecodingCfg (env : AsrEnv) (base : DecodingCfg) : DecodingCfg :=
  { base with
    strategy := "batch"
    searchType := env.beamSearchEnv.getD "malsd_batch"
    beamSize := env.beamSizeEnv.getD 10
    scoreNorm := true
    returnBestHypothesis := true
    allowCudaGraphs := true
    computeTimestamps := false
    preserveAlignments := false }

/-- The decoding configuration in effect for a `_transcribe_chunked` run with
the given `override_beam` argument: the guard is
`if override_beam and override_beam != ASR_BEAM_SIZE:` (app.py line 324). -/
def installedDecodingCfg (env : AsrEnv) (overrideBeam : Option Int) : DecodingCfg :=
  match overrideBeam with
  | some b =>
      if b ≠ 0 ∧ b ≠ asrBeamSizeConst env then
        overrideDecodingCfg env (loadTimeDecodingCfg env)
      else
        loadTimeDecodingCfg env
  | none => loadTimeDecodingCfg env

/-- An environment with none of the three variables set. -/
def emptyAsrEnv : AsrEnv :=
  { beamSizeEnv := none, beamSearchEnv := none, fusedBatchEnv := none }

/-! ## aeneas fragment extraction

Embedding of the fragment-processing block of `run_aeneas_alignment`
(`exec_aeneas.py` lines 224-250).  A raw JSON fragment's `begin`/`end`
fields are modelled as `Option (Option ℚ)`: `none` means the key is absent
(`fragment.get(..., 0)` yields the default `0`), `some none` means the value
is present but `float()` raises `TypeError`/`ValueError` on it, and
`some (some q)` means `float()` yields `q`. -/

structure RawFragment where
  beginField : Option (Option ℚ)
  endField : Option (Option ℚ)

/-- Embedding of `float(fragment.get(key, 0))`: absent keys default to `0`. -/
def fragField : Option (Option ℚ) → Option ℚ
  | none => some 0
  | some v => v

def extractFragments (raw : List RawFragment) : List (ℚ × ℚ) :=
  raw.filterMap fun f =>
    match fragField f.beginField, fragField f.endField with
    | some b, some e => if b ≤ e then some (b, e) else none
    | _, _ => none

structure AeneasResult where
  fragments : List (ℚ × ℚ)
  countLines : Nat
  countFragments : Nat
deriving DecidableEq

/-- The fragments/counts part of the dictionary returned by
`run_aeneas_alignment` (exec_aeneas.py lines 237-250). -/
def runAeneasAlignmentResult (textLines : List String) (raw : List RawFragment) :
    AeneasResult :=
  let fragments := extractFragments raw
  { fragments := fragments
    countLines := textLines.length
    countFragments := fragments.length }

/-! ## CTM timing-table parsing

Embedding of `_parse_ctm` (app.py lines 625-645).  A file is modelled as
`Option (List String)`: `none` when `ctm_path.exists()` is false, otherwise
the list of its lines.  Python's `line.strip().split()` (split on runs of
whitespace, dropping empties) is `pyFields`; `float(...)` on the start and
duration fields is `parseFloatQ`, an exact-rational model of Python `float()`
on decimal literals with optional sign, fraction and exponent (surrounding
whitespace ignored, anything else rejected); `round(x, 3)` is `roundTo3`,
round-half-to-even at three decimals over exact rationals. -/

def splitWsGo : List Char → List Char → List (List Char) → List (List Char)
  | [], cur, acc => ((if cur.isEmpty then acc else cur.reverse :: acc)).reverse
  | c :: rest, cur, acc =>
    if c.isWhitespace then
      splitWsGo rest [] (if cur.isEmpty then acc else cur.reverse :: acc)
    else
      splitWsGo rest (c :: cur) acc

def pyFields (s : String) : List String :=
  (splitWsGo s.data [] []).map String.mk

def digitsToNat (l : List Char) : Nat :=
  l.foldl (fun a c => a * 10 + (c.toNat - 48)) 0

def parseExpTail : List Char → Option Int
  | [] => some 0
  | c :: rest =>
    if c = 'e' ∨ c = 'E' then
      let sgn : Int × List Char :=
        match rest with
        | '-' :: r => (-1, r)
        | '+' :: r => (1, r)
        | r => (1, r)
      if sgn.2 ≠ [] ∧ sgn.2.all Char.isDigit then
        some (sgn.1 * digitsToNat sgn.2)
      else none
    else none

/-- Whitespace trimming on a character list (Python `float()` ignores
surrounding whitespace). -/
def trimChars (cs : List Char) : List Char :=
  ((cs.dropWhile Char.isWhitespace).reverse.dropWhile Char.isWhitespace).reverse

def parseFloatQ (s : String) : Option ℚ :=
  let cs := trimChars s.data
  let signed : ℚ × List Char :=
    match cs with
    | '-' :: r => (-1, r)
    | '+' :: r => (1, r)
    | r => (1, r)
  let intDigits := signed.2.takeWhile Char.isDigit
  let rest1 := signed.2.dropWhile Char.isDigit
  let fracPart : List Char × List Char :=
    match rest1 with
    | '.' :: r => (r.takeWhile Char.isDigit, r.dropWhile Char.isDigit)
    | r => ([], r)
  if intDigits.isEmpty ∧ fracPart.1.isEmpty then none
  else
    match parseExpTail fracPart.2 with
    | none => none
    | some e =>
      let mant : ℚ :=
        (digitsToNat intDigits : ℚ) +
          (digitsToNat fracPart.1 : ℚ) / (10 : ℚ) ^ fracPart.1.length
      some (signed.1 * mant * (10 : ℚ) ^ e)

/-- Python `round` on an exact rational: nearest integer, ties to even. -/
def pyRound (q : ℚ) : Int :=
  let f := ⌊q⌋
  let r := q - (f : ℚ)
  if r < 1 / 2 then f
  else if 1 / 2 < r then f + 1
  else if f % 2 = 0 then f else f + 1

/-- Embedding of `round(x, 3)` over exact rationals. -/
def roundTo3 (q : ℚ) : ℚ := (pyRound (q * 1000) : ℚ) / 1000

/-- The `Token` pydantic model (app.py lines 100-103): word/segment text,
start second, duration second. -/
structure Token where
  w : String
  t : ℚ
  d : ℚ
deriving DecidableEq

/-- One iteration of the `_parse_ctm` line loop.  The source guard
`len(parts) < 5: continue` followed by `_, _, start, dur, *text_parts =
parts` is the first pattern (a list matches it exactly when it has at least
five elements, and then `text_parts` is nonempty).  The source's
`line.strip()` before `.split()` is a no-op, since `split()` already drops
leading and trailing whitespace. -/
def parseLine (line : String) : Option Token :=
  match pyFields line with
  | _ :: _ :: startF :: durF :: w1 :: ws =>
    match parseFloatQ startF, parseFloatQ durF with
    | some t, some d =>
        some { w := String.intercalate " " (w1 :: ws), t := roundTo3 t, d := roundTo3 d }
    | _, _ => none
  | _ => none

def parseCtm (file : Option (List String)) : List Token :=
  match file with
  | none => []
  | some lines => lines.filterMap parseLine

/-! ## Audio segmenter

Embedding of `_prepare_chunks` (app.py lines 155-239).  Audio is represented
by its sample count `total` and sample rate `sr`; times are exact rationals.
The outcome of `librosa.effects.split` is an oracle: `splitOk = false` takes
the fixed-window fallback of the `except` block, otherwise `nonSilent` is
the list of non-silent `[start, end]` sample intervals.  Each emitted chunk
is the `(startSample, endSample)` pair handed to `_write_segment`, whose
recorded times are `start/sr` and `end/sr`.  The two `while` loops are
written with explicit fuel (`none` = fuel exhausted); with the fuel used by
`prepareChunksModel` they are proved total below whenever
`int(max_chunk_sec * sr) ≥ 1`. -/

/-- Python `int()` on a rational: truncation toward zero. -/
def pyIntTrunc (q : ℚ) : Int := if 0 ≤ q then ⌊q⌋ else -⌊-q⌋

/-- Candidate silence points: `int((s_end + n_start) / 2)` for consecutive
non-silent intervals with `n_start > s_end` (app.py lines 196-201). -/
def silenceMidpoints (nonSilent : List (Nat × Nat)) : List Nat :=
  (nonSilent.zip nonSilent.tail).filterMap fun p =>
    if p.1.2 < p.2.1 then some ((p.1.2 + p.2.1) / 2) else none

def insertSorted (x : Nat) : List Nat → List Nat
  | [] => [x]
  | y :: rest => if x ≤ y then x :: y :: rest else y :: insertSorted x rest

def sortNatList (l : List Nat) : List Nat := l.foldr insertSorted []

/-- Embedding of the sorted set of silence points (0, total, and the
midpoints) mapped to seconds
(app.py lines 196-204). -/
def silenceSecsList (nonSilent : List (Nat × Nat)) (total sr : Nat) : List ℚ :=
  (sortNatList ((0 :: total :: silenceMidpoints nonSilent).dedup)).map
    fun s => (s : ℚ) / (sr : ℚ)

/-- Python `min(candidates, key=lambda s: abs(s - target))`: the first
element attaining the minimal distance. -/
def pickClosest (target : ℚ) : List ℚ → Option ℚ
  | [] => none
  | x :: rest =>
    some (rest.foldl (fun b s => if |s - target| < |b - target| then s else b) x)

/-- One iteration of the silence-aware cut loop (app.py lines 217-234),
computing the next `(cur_start, cur_start_sec)` from the current one; only
reached when `remain > max_chunk_sec`. -/
def chunkStep (silence : List ℚ) (total sr : Nat) (minC maxC : ℚ)
    (curStart : Nat) (curSec : ℚ) : Nat × ℚ :=
  let duration : ℚ := (total : ℚ) / (sr : ℚ)
  let minEndSec := curSec + minC
  let maxEndSec := min duration (curSec + maxC)
  let candidates := silence.filter fun s => decide (minEndSec ≤ s) && decide (s ≤ maxEndSec)
  let targetSec := min duration (curSec + (minC + maxC) / 2)
  let chosenSec : ℚ :=
    match pickClosest targetSec candidates with
    | some c => c
    | none => maxEndSec
  let chosen : Int := pyRound (chosenSec * (sr : ℚ))
  if chosen ≤ (curStart : Int) then
    let c := min total (curStart + (pyIntTrunc (maxC * (sr : ℚ))).toNat)
    (c, (c : ℚ) / (sr : ℚ))
  else
    (chosen.toNat, chosenSec)

/-- The `while cur_start < total_samples` loop of `_prepare_chunks`
(app.py lines 211-234), with fuel. -/
def chunkLoopGo (silence : List ℚ) (total sr : Nat) (minC maxC : ℚ) :
    Nat → Nat → ℚ → Option (List (Nat × Nat))
  | 0, _, _ => none
  | fuel + 1, curStart, curSec =>
    if curStart < total then
      if (total : ℚ) / (sr : ℚ) - curSec ≤ maxC then
        some [(curStart, total)]
      else
        let nx := chunkStep silence total sr minC maxC curStart curSec
        (chunkLoopGo silence total sr minC maxC fuel nx.1 nx.2).map
          (fun rest => (curStart, nx.1) :: rest)
    else some []

/-- The fixed-window fallback loop of the `except` block
(app.py lines 185-193), with fuel. -/
def fixedWindowsGo (total step : Nat) : Nat → Nat → Option (List (Nat × Nat))
  | 0, _ => none
  | fuel + 1, s =>
    if s < total then
      let e := min total (s + step)
      (fixedWindowsGo total step fuel e).map (fun rest => (s, e) :: rest)
    else some []

/-- Embedding of `_prepare_chunks` as the list of `(startSample, endSample)` pairs it
writes, in order (app.py lines 155-239). -/
def prepareChunksModel (splitOk : Bool) (nonSilent : List (Nat × Nat))
    (total sr : Nat) (minC maxC : ℚ) : Option (List (Nat × Nat)) :=
  if total = 0 then some []
  else if (total : ℚ) / (sr : ℚ) ≤ maxC then some [(0, total)]
  else if splitOk then
    chunkLoopGo (silenceSecsList nonSilent total sr) total sr minC maxC (total + 1) 0 0
  else
    fixedWindowsGo total ((pyIntTrunc (maxC * (sr : ℚ))).toNat) (total + 1) 0

/-- The `{start_sec, end_sec}` times `_write_segment` records for each chunk
(app.py lines 171-175). -/
structure AudioChunkTimes where
  startSec : ℚ
  endSec : ℚ
deriving DecidableEq

def chunkTimes (sr : Nat) (segs : List (Nat × Nat)) : List AudioChunkTimes :=
  segs.map fun p => { startSec := (p.1 : ℚ) / (sr : ℚ), endSec := (p.2 : ℚ) / (sr : ℚ) }

/-- The chunk list `segs` tiles the sample range `[a, b)`: the first chunk
starts at `a`, each chunk is nonempty, consecutive chunks share a boundary,
and the last chunk ends exactly at `b` (for `segs = []` this forces
`a = b`). -/
def seamless : List (Nat × Nat) → Nat → Nat → Prop
  | [], a, b => a = b
  | c :: rest, a, b => c.1 = a ∧ c.1 < c.2 ∧ seamless rest c.2 b

/-- Seconds-level version of `seamless` for the recorded chunk times. -/
def seamlessSec : List AudioChunkTimes → ℚ → ℚ → Prop
  | [], a, b => a = b
  | c :: rest, a, b => c.startSec = a ∧ c.startSec < c.endSec ∧ seamlessSec rest c.endSec b

/-! # Theorems -/

/-! ## C1: per-chunk OOM retry ladder -/

/-- C1 counterexample: with a transcription oracle that exhausts accelerator
memory on every call on the CUDA device (at batch 8 and at the fallback
batch 1) but would succeed on the CPU device, the stage makes exactly the
two same-device attempts and fails the job; no third attempt on the CPU
device is ever made, contradicting the claimed migrate-to-CPU rung of the
ladder. -/
theorem c1_oom_ladder_counterexample :
    chunkLadderResult oomOnCudaCall .cuda 8 1 = .error () ∧
    chunkLadderAttempts oomOnCudaCall .cuda 8 1 = [(8, .cuda), (1, .cuda)] ∧
    chunkLadderAttempts oomOnCudaCall .cuda 8 1 ≠
      [(8, .cuda), (1, .cuda), (1, .cpu)] ∧
    oomOnCudaCall 1 .cpu = .ok "recovered" :=
  ⟨rfl, by decide, by decide, rfl⟩

/-- C1 (amended): when a chunk's first transcription call exhausts
accelerator memory, the stage retries exactly once with the fallback batch
size on the same device; the chunk succeeds exactly when that retry
succeeds, and any failure of the retry (a second memory exhaustion or any
other error) is fatal for the whole job.  No device migration occurs. -/
theorem c1_oom_ladder (call : Nat → Device → CallResult) (dev : Device)
    (batch fallbackBatch : Nat) (h : call batch dev = .oom) :
    chunkLadderAttempts call dev batch fallbackBatch =
      [(batch, dev), (fallbackBatch, dev)] ∧
    (∀ t, chunkLadderResult call dev batch fallbackBatch = .ok t ↔
      call fallbackBatch dev = .ok t) ∧
    ((∀ t, call fallbackBatch dev ≠ .ok t) →
      chunkLadderResult call dev batch fallbackBatch = .error ()) := by
  have hres : chunkLadderResult call dev batch fallbackBatch =
      (match call fallbackBatch dev with
       | .ok t => Except.ok t
       | _ => Except.error ()) := by
    simp [chunkLadderResult, h]
  refine ⟨by simp [chunkLadderAttempts, h], ?_, ?_⟩
  · intro t
    rw [hres]
    cases hr : call fallbackBatch dev <;> simp [hr]
  · intro hfail
    rw [hres]
    cases hr : call fallbackBatch dev
    · exact absurd hr (hfail _)
    · rfl
    · rfl

/-- Witness for `c1_oom_ladder` at a concrete oracle that exhausts memory at
batch 8 and recovers at the fallback batch 1. -/
theorem c1_oom_ladder_witness :
    chunkLadderAttempts (fun b _ => if b = 8 then .oom else .ok "text") .cuda 8 1 =
      [(8, .cuda), (1, .cuda)] ∧
    chunkLadderResult (fun b _ => if b = 8 then .oom else .ok "text") .cuda 8 1 =
      .ok "text" :=
  ⟨(c1_oom_ladder (fun b _ => if b = 8 then .oom else .ok "text") .cuda 8 1 rfl).1,
   ((c1_oom_ladder (fun b _ => if b = 8 then .oom else .ok "text") .cuda 8 1 rfl).2.1
      "text").mpr rfl⟩

/-! ## C2: per-chunk cleanup -/

/-- C2 counterexample: when the first chunk's transcription fails (its retry
ladder exhausted), the exception aborts the loop before the cleanup lines
run, so the job ends with that chunk's temporary file never deleted and no
memory release performed — cleanup is not `regardless of success or
failure`. -/
theorem c2_cleanup_counterexample :
    runChunksLoop failingOutcome [0, 1] ⟨[], [], []⟩ = .error ⟨[], [], []⟩ ∧
    (loopTrace failingOutcome [0, 1]).cleaned = [] ∧
    0 ∉ (loopTrace failingOutcome [0, 1]).cleaned ∧
    (loopTrace failingOutcome [0, 1]).released = [] :=
  ⟨rfl, rfl, by decide, rfl⟩

/-- Helper: the chunk loop over an arbitrary starting trace.  On a completed
run every chunk, in order, had its temporary file deleted and its memory
release performed; on an aborted run exactly the chunks strictly before the
failing one were cleaned, and the failing chunk was not. -/
theorem runChunksLoop_trace (outcome : Nat → Except Unit String)
    (chunks : List Nat) (init : ChunkTrace) :
    (∀ st, runChunksLoop outcome chunks init = .ok st →
      st.cleaned = init.cleaned ++ chunks ∧ st.released = init.released ++ chunks) ∧
    (∀ st, runChunksLoop outcome chunks init = .error st →
      ∃ done i rest, chunks = done ++ i :: rest ∧ outcome i = .error () ∧
        st.cleaned = init.cleaned ++ done ∧ st.released = init.released ++ done) := by
  induction chunks generalizing init with
  | nil =>
    refine ⟨?_, ?_⟩
    · intro st hst
      simp only [runChunksLoop] at hst
      cases hst
      simp
    · intro st hst
      simp [runChunksLoop] at hst
  | cons i rest ih =>
    refine ⟨?_, ?_⟩
    · intro st hst
      simp only [runChunksLoop] at hst
      cases ho : outcome i with
      | ok t =>
        rw [ho] at hst
        have := (ih _).1 st hst
        simpa using this
      | error e => rw [ho] at hst; cases hst
    · intro st hst
      simp only [runChunksLoop] at hst
      cases ho : outcome i with
      | ok t =>
        rw [ho] at hst
        obtain ⟨done, j, rest', hchunks, hj, hcl, hrel⟩ := (ih _).2 st hst
        exact ⟨i :: done, j, rest', by simp [hchunks], hj, by simpa using hcl,
          by simpa using hrel⟩
      | error e =>
        rw [ho] at hst
        cases hst
        exact ⟨[], i, rest, by simp, by cases e; exact ho, by simp, by simp⟩

/-- C2 (amended): each chunk that transcribes successfully has its temporary
file deleted and its transient accelerator memory released before the next
chunk is processed — on a completed job the cleaned and released lists equal
the chunk list in order.  When a chunk's transcription fails, however, the
job aborts with exactly the earlier chunks cleaned, and the failing chunk's
temporary file is not deleted. -/
theorem c2_chunk_cleanup (outcome : Nat → Except Unit String) (chunks : List Nat) :
    (∀ st, runChunksLoop outcome chunks ⟨[], [], []⟩ = .ok st →
      st.cleaned = chunks ∧ st.released = chunks) ∧
    (∀ st, runChunksLoop outcome chunks ⟨[], [], []⟩ = .error st →
      ∃ done i rest, chunks = done ++ i :: rest ∧ outcome i = .error () ∧
        st.cleaned = done ∧ st.released = done) := by
  have h := runChunksLoop_trace outcome chunks ⟨[], [], []⟩
  refine ⟨fun st hst => ?_, fun st hst => ?_⟩
  · have := h.1 st hst
    simpa using this
  · obtain ⟨done, i, rest, hc, hi, hcl, hrel⟩ := h.2 st hst
    exact ⟨done, i, rest, hc, hi, by simpa using hcl, by simpa using hrel⟩

/-- Witness for `c2_chunk_cleanup`: a two-chunk job whose chunks both
succeed ends with both temporary files deleted and both releases done. -/
theorem c2_chunk_cleanup_witness :
    (⟨["a", "a"], [0, 1], [0, 1]⟩ : ChunkTrace).cleaned = [0, 1] ∧
    (⟨["a", "a"], [0, 1], [0, 1]⟩ : ChunkTrace).released = [0, 1] :=
  (c2_chunk_cleanup (fun _ => .ok "a") [0, 1]).1 ⟨["a", "a"], [0, 1], [0, 1]⟩ rfl

/-! ## C3: single full-audio, full-transcript alignment invocation -/

/-- C3: every alignment job invokes the forced-alignment stage exactly once,
via a manifest holding exactly one entry whose audio path is the resolved
original audio path (never a chunk temporary file, provided chunk
temporaries are distinct from the source path, as freshly created temp files
are) and whose text is the full stitched transcript of all chunks. -/
theorem c3_single_full_invocation (resolve : String → String) (audioPath : String)
    (chunkTexts : List String) (chunkTempPaths : List String)
    (hfresh : resolve audioPath ∉ chunkTempPaths) :
    (alignNfaInvocations resolve audioPath chunkTexts).length = 1 ∧
    (∀ m ∈ alignNfaInvocations resolve audioPath chunkTexts,
      m = [{ audio_filepath := resolve audioPath
             text := stitchTranscript chunkTexts }] ∧
      m.length = 1 ∧
      ∀ entry ∈ m, entry.audio_filepath ∉ chunkTempPaths ∧
        entry.text = stitchTranscript chunkTexts) := by
  refine ⟨rfl, ?_⟩
  intro m hm
  simp only [alignNfaInvocations, writeManifest, List.mem_singleton] at hm
  subst hm
  refine ⟨rfl, rfl, ?_⟩
  intro entry hentry
  simp only [List.mem_singleton] at hentry
  subst hentry
  exact ⟨hfresh, rfl⟩

/-- Witness for `c3_single_full_invocation` on a concrete job with two chunk
texts. -/
theorem c3_single_full_invocation_witness :
    (alignNfaInvocations id "/audio/book.wav" ["first chunk", "second chunk"]).length = 1 ∧
    (∀ m ∈ alignNfaInvocations id "/audio/book.wav" ["first chunk", "second chunk"],
      m = [{ audio_filepath := "/audio/book.wav"
             text := stitchTranscript ["first chunk", "second chunk"] }] ∧
      m.length = 1 ∧
      ∀ entry ∈ m, entry.audio_filepath ∉ ["/tmp/c0.wav", "/tmp/c1.wav"] ∧
        entry.text = stitchTranscript ["first chunk", "second chunk"]) :=
  c3_single_full_invocation id "/audio/book.wav" ["first chunk", "second chunk"]
    ["/tmp/c0.wav", "/tmp/c1.wav"] (by decide)

/-! ## C7: invocation fallback strategy -/

/-- C7: the subprocess tier runs exactly when the in-process tier raises
(whatever the exception), it receives the same manifest path, output
directory, model name and output-format selection as the in-process tier
(the per-tier configurations agree on all four), and the job succeeds
whenever that subprocess call succeeds. -/
theorem c7_invocation_strategy (inprocRun cliRun : NfaArgs → Except String Unit)
    (a : NfaArgs) :
    ((∃ x, (NfaTier.cli, x) ∈ (runNfaDispatch inprocRun cliRun a).2) ↔
      ∃ e, inprocRun a = .error e) ∧
    (∀ x, (NfaTier.cli, x) ∈ (runNfaDispatch inprocRun cliRun a).2 → x = a) ∧
    (inprocConfig a = cliConfig a) ∧
    ((∃ e, inprocRun a = .error e) → cliRun a = .ok () →
      (runNfaDispatch inprocRun cliRun a).1 = .ok ()) := by
  cases h : inprocRun a with
  | ok u =>
    refine ⟨?_, ?_, rfl, ?_⟩
    · simp [runNfaDispatch, h]
    · simp [runNfaDispatch, h]
    · rintro ⟨e, he⟩
      exact fun _ => Except.noConfusion he
  | error e =>
    refine ⟨?_, ?_, rfl, ?_⟩
    · simp only [runNfaDispatch, h]
      constructor
      · intro _
        exact ⟨e, rfl⟩
      · intro _
        exact ⟨a, by simp⟩
    · simp [runNfaDispatch, h]
    · intro _ hcli
      simp [runNfaDispatch, h, hcli]

/-- Witness for `c7_invocation_strategy`: an in-process tier that raises a
module-loading error and a subprocess tier that succeeds. -/
theorem c7_invocation_strategy_witness :
    ((∃ x, (NfaTier.cli, x) ∈
        (runNfaDispatch (fun _ => .error "align.py not found") (fun _ => .ok ())
          ⟨"/tmp/m.json", "/tmp/out", "stt_en_fastconformer_ctc_large", false⟩).2) ↔
      ∃ e, (fun (_ : NfaArgs) => (.error "align.py not found" : Except String Unit))
          ⟨"/tmp/m.json", "/tmp/out", "stt_en_fastconformer_ctc_large", false⟩ = .error e) ∧
    (runNfaDispatch (fun _ => .error "align.py not found") (fun _ => .ok ())
        ⟨"/tmp/m.json", "/tmp/out", "stt_en_fastconformer_ctc_large", false⟩).1 = .ok () :=
  ⟨(c7_invocation_strategy (fun _ => .error "align.py not found") (fun _ => .ok ())
      ⟨"/tmp/m.json", "/tmp/out", "stt_en_fastconformer_ctc_large", false⟩).1,
   (c7_invocation_strategy (fun _ => .error "align.py not found") (fun _ => .ok ())
      ⟨"/tmp/m.json", "/tmp/out", "stt_en_fastconformer_ctc_large", false⟩).2.2.2
      ⟨"align.py not found", rfl⟩ rfl⟩

/-! ## C8: NFA model selection -/

/-- C8 counterexample: a request-supplied model name whose name does not
contain `"ctc"` is not preferred — the selection skips it and returns the
configured default, so selection does not simply `prefer the
request-supplied model name`. -/
theorem c8_model_selection_counterexample :
    selectNfaModel (some "parakeet-tdt-1.1b") NFA_MODEL_NAME NFA_MODEL_FALLBACKS =
      "stt_en_fastconformer_ctc_large" ∧
    selectNfaModel (some "parakeet-tdt-1.1b") NFA_MODEL_NAME NFA_MODEL_FALLBACKS ≠
      "parakeet-tdt-1.1b" := by
  exact ⟨by decide, by decide⟩

/-- C8 (amended): selection walks the candidates in the order
request-supplied name, configured default, then the fallback list, and
returns the first nonempty candidate whose lower-cased name contains
`"ctc"`; a request-supplied name is honored exactly when it passes that
filter.  When no candidate qualifies, the first candidate (the request name
when supplied) is returned rather than failing — selection itself never
fails, and the obtainability of the chosen model is left to the aligner. -/
theorem c8_model_selection (r d : String) (fb : List String) :
    (r ≠ "" → containsCtcName r = true → selectNfaModel (some r) d fb = r) ∧
    (containsCtcName r = false → d ≠ "" → containsCtcName d = true →
      selectNfaModel (some r) d fb = d) ∧
    selectNfaModel (some "parakeet") "conformer-transducer"
      ["fallback_ctc_one", "fallback_ctc_two"] = "fallback_ctc_one" ∧
    selectNfaModel (some "parakeet") "conformer" ["transducer"] = "parakeet" := by
  refine ⟨?_, ?_, by decide, by decide⟩
  · intro hr hc
    simp [selectNfaModel, nfaCandidates, hr, List.find?, hc]
  · intro hcr hd hcd
    by_cases hr : r = "" <;>
      simp [selectNfaModel, nfaCandidates, hr, List.find?, hcr, hd, hcd]

/-- Witness for `c8_model_selection`: a CTC-named request is honored, and a
non-CTC request falls through to a CTC-named default. -/
theorem c8_model_selection_witness :
    selectNfaModel (some "my_ctc_model") "stt_en_fastconformer_ctc_large"
      ["stt_en_conformer_ctc_large"] = "my_ctc_model" ∧
    selectNfaModel (some "parakeet-tdt") "stt_en_fastconformer_ctc_large"
      ["stt_en_conformer_ctc_large"] = "stt_en_fastconformer_ctc_large" :=
  ⟨(c8_model_selection "my_ctc_model" "stt_en_fastconformer_ctc_large"
      ["stt_en_conformer_ctc_large"]).1 (by decide) (by decide),
   (c8_model_selection "parakeet-tdt" "stt_en_fastconformer_ctc_large"
      ["stt_en_conformer_ctc_large"]).2.1 (by decide) (by decide) (by decide)⟩

/-! ## C9: beam-size override non-interference -/

/-- C9 counterexample: `0` is a non-null override value different from the
configured beam size (12 with the variable unset), yet Python's truthiness
test skips the reconfiguration for it, so a run with override `0` keeps the
load-time strategy `"beam"` while a run with override `5` installs strategy
`"batch"` — the two runs do not install identical decoding configurations. -/
theorem c9_beam_override_counterexample :
    asrBeamSizeConst emptyAsrEnv = 12 ∧
    installedDecodingCfg emptyAsrEnv (some 0) ≠ installedDecodingCfg emptyAsrEnv (some 5) ∧
    (installedDecodingCfg emptyAsrEnv (some 0)).strategy = "beam" ∧
    (installedDecodingCfg emptyAsrEnv (some 5)).strategy = "batch" :=
  ⟨rfl, by decide, by decide, by decide⟩

/-- C9 (amended): two runs that differ only in a non-zero, non-null
beam-size override (each different from the configured beam size) install
identical decoding configurations, and in every run the beam width actually
installed is the one read from the `ASR_BEAM_SIZE` environment
configuration (default 10), never the override argument's value. -/
theorem c9_beam_override (env : AsrEnv) (b1 b2 : Int)
    (h1 : b1 ≠ 0) (h2 : b2 ≠ 0)
    (h1c : b1 ≠ asrBeamSizeConst env) (h2c : b2 ≠ asrBeamSizeConst env) :
    installedDecodingCfg env (some b1) = installedDecodingCfg env (some b2) ∧
    ∀ o : Option Int, (installedDecodingCfg env o).beamSize = env.beamSizeEnv.getD 10 := by
  constructor
  · simp [installedDecodingCfg, h1, h2, h1c, h2c]
  · intro o
    cases o with
    | none => rfl
    | some b =>
      by_cases hb : b ≠ 0 ∧ b ≠ asrBeamSizeConst env <;>
        simp [installedDecodingCfg, hb, overrideDecodingCfg, loadTimeDecodingCfg]

/-- Witness for `c9_beam_override` with overrides 5 and 7 against an unset
environment (configured beam size 12). -/
theorem c9_beam_override_witness :
    installedDecodingCfg emptyAsrEnv (some 5) = installedDecodingCfg emptyAsrEnv (some 7) ∧
    (installedDecodingCfg emptyAsrEnv (some 5)).beamSize = 10 :=
  ⟨(c9_beam_override emptyAsrEnv 5 7 (by decide) (by decide) (by decide) (by decide)).1,
   (c9_beam_override emptyAsrEnv 5 7 (by decide) (by decide) (by decide) (by decide)).2
      (some 5)⟩

/-! ## C10: aeneas fragment invariants -/

/-- C10: every fragment returned by `run_aeneas_alignment` has
`begin ≤ end`; the `counts.fragments` field equals the number of fragments
returned, which never exceeds the number of raw fragments; and a fragment
whose time fails to parse as a number, or whose times are inverted, is
silently dropped (shown on a concrete triple of raw fragments). -/
theorem c10_aeneas_fragments (textLines : List String) (raw : List RawFragment) :
    (∀ p ∈ (runAeneasAlignmentResult textLines raw).fragments, p.1 ≤ p.2) ∧
    (runAeneasAlignmentResult textLines raw).countFragments =
      (runAeneasAlignmentResult textLines raw).fragments.length ∧
    (runAeneasAlignmentResult textLines raw).fragments.length ≤ raw.length ∧
    extractFragments
      [⟨some (some 1), some (some 2)⟩, ⟨some none, some (some 3)⟩,
       ⟨some (some 5), some (some 4)⟩] = [(1, 2)] := by
  refine ⟨?_, rfl, ?_, by decide⟩
  · intro p hp
    simp only [runAeneasAlignmentResult, extractFragments, List.mem_filterMap] at hp
    obtain ⟨f, _, hf⟩ := hp
    rcases hb : fragField f.beginField with _ | b <;> rw [hb] at hf
    · cases hf
    · rcases he : fragField f.endField with _ | e <;> rw [he] at hf
      · cases hf
      · have hf' : (if b ≤ e then some (b, e) else none) = some p := hf
        by_cases hle : b ≤ e
        · rw [if_pos hle] at hf'
          cases hf'
          exact hle
        · rw [if_neg hle] at hf'
          cases hf'
  · exact List.length_filterMap_le _ _

/-- Witness for `c10_aeneas_fragments` at a concrete one-fragment result. -/
theorem c10_aeneas_fragments_witness :
    (runAeneasAlignmentResult ["hello world"]
        [⟨some (some 1), some (some 2)⟩]).countFragments =
      (runAeneasAlignmentResult ["hello world"]
        [⟨some (some 1), some (some 2)⟩]).fragments.length :=
  (c10_aeneas_fragments ["hello world"] [⟨some (some 1), some (some 2)⟩]).2.1

/-! ## C6: CTM timing-table parsing -/

/-- C6: the timing-table parser skips every line with fewer than five
whitespace-delimited fields and every line whose start or duration field
fails numeric parsing, without failing the file; a missing file yields the
empty list; the well-formed line `utt1 1 12.340 0.560 hello` yields the
token with text `hello`, start `12.34` and duration `0.56` (times rounded
to millisecond precision); and parsing is per-line in file order (it
distributes over concatenation, so no re-sorting occurs). -/
theorem c6_ctm_parsing :
    parseCtm none = [] ∧
    (∀ line, (pyFields line).length < 5 → parseLine line = none) ∧
    (∀ line u c s d ws, pyFields line = u :: c :: s :: d :: ws → ws ≠ [] →
      parseFloatQ s = none ∨ parseFloatQ d = none → parseLine line = none) ∧
    parseLine "utt1 1 12.340 0.560 hello" = some ⟨"hello", 12.34, 0.56⟩ ∧
    (∀ l1 l2 : List String,
      parseCtm (some (l1 ++ l2)) = parseCtm (some l1) ++ parseCtm (some l2)) := by
  refine ⟨rfl, ?_, ?_, ?_, ?_⟩
  · intro line hlen
    rcases h : pyFields line with _ | ⟨u, _ | ⟨c, _ | ⟨s, _ | ⟨d, _ | ⟨w, ws⟩⟩⟩⟩⟩ <;>
      simp only [parseLine, h] <;> try rfl
    rw [h] at hlen
    simp at hlen
    omega
  · intro line u c s d ws h hws hfail
    rcases ws with _ | ⟨w1, ws'⟩
    · exact absurd rfl hws
    · simp only [parseLine, h]
      rcases hfail with hs | hd
      · rw [hs]
      · rw [hd]
        cases hps : parseFloatQ s <;> rfl
  · have hp : pyFields "utt1 1 12.340 0.560 hello" =
        ["utt1", "1", "12.340", "0.560", "hello"] := rfl
    have hs : parseFloatQ "12.340" =
        some ((1 : ℚ) * ((12 : ℚ) + (340 : ℚ) / (10 : ℚ) ^ (3 : ℕ)) *
          (10 : ℚ) ^ (0 : ℤ)) := rfl
    have hd : parseFloatQ "0.560" =
        some ((1 : ℚ) * ((0 : ℚ) + (560 : ℚ) / (10 : ℚ) ^ (3 : ℕ)) *
          (10 : ℚ) ^ (0 : ℤ)) := rfl
    simp only [parseLine, hp, hs, hd]
    norm_num [roundTo3, pyRound, Token.mk.injEq]
    decide
  · intro l1 l2
    simp [parseCtm, List.filterMap_append]

/-- Witness for `c6_ctm_parsing`: a two-field line is skipped, and a line
with a non-numeric start field is skipped. -/
theorem c6_ctm_parsing_witness :
    parseLine "utt1 1" = none ∧ parseLine "utt1 1 bogus 0.560 hello" = none :=
  ⟨c6_ctm_parsing.2.1 "utt1 1" (by decide),
   c6_ctm_parsing.2.2.1 "utt1 1 bogus 0.560 hello" "utt1" "1" "bogus" "0.560"
     ["hello"] rfl (by decide) (Or.inl (by decide))⟩

/-! ## Segmenter helper lemmas -/

/-- The fold inside `pickClosest` returns either its seed or a list
element. -/
theorem pickClosest_fold_mem (target : ℚ) (l : List ℚ) (x : ℚ) :
    l.foldl (fun b s => if |s - target| < |b - target| then s else b) x ∈ x :: l := by
  induction l generalizing x with
  | nil => simp
  | cons y ys ih =>
    simp only [List.foldl_cons]
    by_cases hc : |y - target| < |x - target|
    · rw [if_pos hc]
      rcases List.mem_cons.mp (ih y) with h | h
      · simp [h]
      · simp [List.mem_cons, h]
    · rw [if_neg hc]
      rcases List.mem_cons.mp (ih x) with h | h
      · simp [h]
      · simp [List.mem_cons, h]

theorem pickClosest_mem (target : ℚ) (l : List ℚ) (c : ℚ)
    (h : pickClosest target l = some c) : c ∈ l := by
  cases l with
  | nil => cases h
  | cons x rest =>
    simp only [pickClosest, Option.some.injEq] at h
    subst h
    exact pickClosest_fold_mem target rest x

/-- Python `round` of a rational bounded by an integer stays bounded by that
integer. -/
theorem pyRound_le_intCast (q : ℚ) (n : Int) (h : q ≤ (n : ℚ)) : pyRound q ≤ n := by
  have hf : ⌊q⌋ ≤ n := by
    have := Int.floor_le_floor h
    simpa using this
  have haux : (⌊q⌋ : ℚ) + 1 / 2 ≤ (n : ℚ) → ⌊q⌋ + 1 ≤ n := by
    intro hq
    have hlt : (⌊q⌋ : ℚ) < (n : ℚ) := by linarith
    have : ⌊q⌋ < n := by exact_mod_cast hlt
    omega
  have hfl : (⌊q⌋ : ℚ) ≤ q := Int.floor_le q
  unfold pyRound
  by_cases h1 : q - (⌊q⌋ : ℚ) < 1 / 2
  · simp only [if_pos h1]
    exact hf
  · simp only [if_neg h1]
    by_cases h2 : 1 / 2 < q - (⌊q⌋ : ℚ)
    · simp only [if_pos h2]
      exact haux (by linarith)
    · simp only [if_neg h2]
      have heq : q - (⌊q⌋ : ℚ) = 1 / 2 := le_antisymm (not_lt.mp h2) (not_lt.mp h1)
      by_cases h3 : ⌊q⌋ % 2 = 0
      · simp only [if_pos h3]
        exact hf
      · simp only [if_neg h3]
        exact haux (by linarith)

/-- The `chosen_sec` computed by one loop iteration never exceeds the total
duration. -/
theorem chunkStep_chosenSec_le (silence : List ℚ) (total sr : Nat) (minC maxC : ℚ)
    (curSec : ℚ) :
    (match pickClosest (min ((total : ℚ) / (sr : ℚ)) (curSec + (minC + maxC) / 2))
        (silence.filter fun s =>
          decide (curSec + minC ≤ s) &&
          decide (s ≤ min ((total : ℚ) / (sr : ℚ)) (curSec + maxC))) with
      | some c => c
      | none => min ((total : ℚ) / (sr : ℚ)) (curSec + maxC)) ≤
      (total : ℚ) / (sr : ℚ) := by
  cases hp : pickClosest (min ((total : ℚ) / (sr : ℚ)) (curSec + (minC + maxC) / 2))
      (silence.filter fun s =>
        decide (curSec + minC ≤ s) &&
        decide (s ≤ min ((total : ℚ) / (sr : ℚ)) (curSec + maxC))) with
  | none => exact min_le_left _ _
  | some c =>
    have hc := pickClosest_mem _ _ _ hp
    rw [List.mem_filter] at hc
    have := hc.2
    simp only [Bool.and_eq_true, decide_eq_true_eq] at this
    exact le_trans this.2 (min_le_left _ _)

/-- The next chunk start computed by `chunkStep` never exceeds the total
sample count. -/
theorem chunkStep_le_total (silence : List ℚ) (total sr : Nat) (minC maxC : ℚ)
    (curStart : Nat) (curSec : ℚ) (hsr : sr ≠ 0) :
    (chunkStep silence total sr minC maxC curStart curSec).1 ≤ total := by
  unfold chunkStep
  simp only
  split
  · exact min_le_left _ _
  · have hsec := chunkStep_chosenSec_le silence total sr minC maxC curSec
    have hsrq : (sr : ℚ) ≠ 0 := Nat.cast_ne_zero.mpr hsr
    have hsrpos : (0 : ℚ) ≤ (sr : ℚ) := Nat.cast_nonneg sr
    have hmul : (match pickClosest (min ((total : ℚ) / (sr : ℚ)) (curSec + (minC + maxC) / 2))
        (silence.filter fun s =>
          decide (curSec + minC ≤ s) &&
          decide (s ≤ min ((total : ℚ) / (sr : ℚ)) (curSec + maxC))) with
        | some c => c
        | none => min ((total : ℚ) / (sr : ℚ)) (curSec + maxC)) * (sr : ℚ) ≤
        ((total : Int) : ℚ) := by
      have h2 : (total : ℚ) / (sr : ℚ) * (sr : ℚ) = (total : ℚ) :=
        div_mul_cancel₀ _ hsrq
      have h3 := mul_le_mul_of_nonneg_right hsec hsrpos
      rw [h2] at h3
      exact_mod_cast h3
    have := pyRound_le_intCast _ _ hmul
    omega

/-- With a nonzero fixed-window step, `chunkStep` strictly advances. -/
theorem chunkStep_gt (silence : List ℚ) (total sr : Nat) (minC maxC : ℚ)
    (curStart : Nat) (curSec : ℚ)
    (hstep : 1 ≤ (pyIntTrunc (maxC * (sr : ℚ))).toNat) (hlt : curStart < total) :
    curStart < (chunkStep silence total sr minC maxC curStart curSec).1 := by
  unfold chunkStep
  simp only
  split
  · exact Nat.lt_min.mpr ⟨hlt, by omega⟩
  · next hcond => omega

/-- Every segment list produced by the silence-aware loop tiles the sample
range from its starting position to the end of the audio. -/
theorem chunkLoopGo_seamless (silence : List ℚ) (total sr : Nat) (minC maxC : ℚ)
    (hsr : sr ≠ 0) (hstep : 1 ≤ (pyIntTrunc (maxC * (sr : ℚ))).toNat) :
    ∀ fuel curStart curSec segs, curStart ≤ total →
      chunkLoopGo silence total sr minC maxC fuel curStart curSec = some segs →
      seamless segs curStart total := by
  intro fuel
  induction fuel with
  | zero => intro curStart curSec segs _ h; cases h
  | succ fuel ih =>
    intro curStart curSec segs hle h
    simp only [chunkLoopGo] at h
    by_cases hlt : curStart < total
    · rw [if_pos hlt] at h
      by_cases hrem : (total : ℚ) / (sr : ℚ) - curSec ≤ maxC
      · rw [if_pos hrem] at h
        cases h
        exact ⟨rfl, hlt, rfl⟩
      · rw [if_neg hrem] at h
        cases hr : chunkLoopGo silence total sr minC maxC fuel
            (chunkStep silence total sr minC maxC curStart curSec).1
            (chunkStep silence total sr minC maxC curStart curSec).2 with
        | none => rw [hr] at h; cases h
        | some rest =>
          rw [hr] at h
          cases h
          exact ⟨rfl, chunkStep_gt silence total sr minC maxC curStart curSec hstep hlt,
            ih _ _ rest (chunkStep_le_total silence total sr minC maxC curStart curSec hsr) hr⟩
    · rw [if_neg hlt] at h
      cases h
      have : curStart = total := by omega
      exact this

/-- With enough fuel the silence-aware loop terminates. -/
theorem chunkLoopGo_isSome (silence : List ℚ) (total sr : Nat) (minC maxC : ℚ)
    (hstep : 1 ≤ (pyIntTrunc (maxC * (sr : ℚ))).toNat) :
    ∀ fuel curStart curSec, total - curStart < fuel →
      (chunkLoopGo silence total sr minC maxC fuel curStart curSec).isSome = true := by
  intro fuel
  induction fuel with
  | zero => intro curStart curSec hfuel; omega
  | succ fuel ih =>
    intro curStart curSec hfuel
    simp only [chunkLoopGo]
    by_cases hlt : curStart < total
    · rw [if_pos hlt]
      by_cases hrem : (total : ℚ) / (sr : ℚ) - curSec ≤ maxC
      · rw [if_pos hrem]; rfl
      · rw [if_neg hrem]
        have hgt := chunkStep_gt silence total sr minC maxC curStart curSec hstep hlt
        have := ih (chunkStep silence total sr minC maxC curStart curSec).1
          (chunkStep silence total sr minC maxC curStart curSec).2 (by omega)
        cases hr : chunkLoopGo silence total sr minC maxC fuel
            (chunkStep silence total sr minC maxC curStart curSec).1
            (chunkStep silence total sr minC maxC curStart curSec).2 with
        | none => rw [hr] at this; cases this
        | some rest => rfl
    · rw [if_neg hlt]; rfl

/-- Every segment list produced by the fixed-window fallback loop tiles the
sample range from its starting position to the end of the audio. -/
theorem fixedWindowsGo_seamless (total step : Nat) (hstep : 1 ≤ step) :
    ∀ fuel s segs, s ≤ total →
      fixedWindowsGo total step fuel s = some segs → seamless segs s total := by
  intro fuel
  induction fuel with
  | zero => intro s segs _ h; cases h
  | succ fuel ih =>
    intro s segs hle h
    simp only [fixedWindowsGo] at h
    by_cases hlt : s < total
    · rw [if_pos hlt] at h
      cases hr : fixedWindowsGo total step fuel (min total (s + step)) with
      | none => rw [hr] at h; cases h
      | some rest =>
        rw [hr] at h
        cases h
        exact ⟨rfl, Nat.lt_min.mpr ⟨hlt, by omega⟩,
          ih _ rest (min_le_left _ _) hr⟩
    · rw [if_neg hlt] at h
      cases h
      have : s = total := by omega
      exact this

/-- With enough fuel the fixed-window fallback loop terminates. -/
theorem fixedWindowsGo_isSome (total step : Nat) (hstep : 1 ≤ step) :
    ∀ fuel s, total - s < fuel →
      (fixedWindowsGo total step fuel s).isSome = true := by
  intro fuel
  induction fuel with
  | zero => intro s hfuel; omega
  | succ fuel ih =>
    intro s hfuel
    simp only [fixedWindowsGo]
    by_cases hlt : s < total
    · rw [if_pos hlt]
      have hmin : s < min total (s + step) := Nat.lt_min.mpr ⟨hlt, by omega⟩
      have := ih (min total (s + step)) (by omega)
      cases hr : fixedWindowsGo total step fuel (min total (s + step)) with
      | none => rw [hr] at this; cases this
      | some rest => rfl
    · rw [if_neg hlt]; rfl

/-- When the sample rate and the maximum chunk length are at least one, the
fallback advance `int(max_chunk_sec * sr)` is at least one sample. -/
theorem one_le_trunc_step (sr : Nat) (maxC : ℚ) (hsr : 1 ≤ sr) (hmax : 1 ≤ maxC) :
    1 ≤ (pyIntTrunc (maxC * (sr : ℚ))).toNat := by
  have hsrq : (1 : ℚ) ≤ (sr : ℚ) := by exact_mod_cast hsr
  have hq : (1 : ℚ) ≤ maxC * (sr : ℚ) := by nlinarith
  have h0 : (0 : ℚ) ≤ maxC * (sr : ℚ) := by linarith
  have : (1 : Int) ≤ ⌊maxC * (sr : ℚ)⌋ := Int.le_floor.mpr (by exact_mod_cast hq)
  unfold pyIntTrunc
  rw [if_pos h0]
  omega

/-- Sample-level tiling transfers to the recorded per-chunk times. -/
theorem seamless_chunkTimes (sr : Nat) (hsr : 0 < sr) :
    ∀ segs a b, seamless segs a b →
      seamlessSec (chunkTimes sr segs) ((a : ℚ) / (sr : ℚ)) ((b : ℚ) / (sr : ℚ)) := by
  intro segs
  induction segs with
  | nil =>
    intro a b h
    cases h
    rfl
  | cons c rest ih =>
    intro a b h
    obtain ⟨h1, h2, h3⟩ := h
    have hsrq : (0 : ℚ) < (sr : ℚ) := by exact_mod_cast hsr
    have hcast : (c.1 : ℚ) < (c.2 : ℚ) := by exact_mod_cast h2
    refine ⟨?_, ?_, ih c.2 b h3⟩
    · show (c.1 : ℚ) / (sr : ℚ) = (a : ℚ) / (sr : ℚ)
      rw [h1]
    · show (c.1 : ℚ) / (sr : ℚ) < (c.2 : ℚ) / (sr : ℚ)
      exact div_lt_div_of_pos_right hcast hsrq

/-! ## C4: single chunk for short audio -/

/-- C4 counterexample: zero-length audio is returned as an empty chunk list,
not as a single chunk — `_prepare_chunks` returns `[]` before the
single-chunk branch is reached, so the claim fails for zero-length audio. -/
theorem c4_single_chunk_counterexample :
    prepareChunksModel true [] 0 16000 60 90 = some [] ∧
    (prepareChunksModel true [] 0 16000 60 90).map List.length ≠ some 1 :=
  ⟨by decide, by decide⟩

/-- C4 (amended): for every audio input with at least one sample whose total
duration is at most `maxChunkSec`, the segmenter returns exactly one chunk
spanning all samples, whose recorded times are `startSec = 0` and
`endSec = duration`; zero-length audio instead yields the empty chunk
list. -/
theorem c4_single_chunk (splitOk : Bool) (nonSilent : List (Nat × Nat))
    (total sr : Nat) (minC maxC : ℚ)
    (hpos : 0 < total) (hdur : (total : ℚ) / (sr : ℚ) ≤ maxC) :
    prepareChunksModel splitOk nonSilent total sr minC maxC = some [(0, total)] ∧
    chunkTimes sr [(0, total)] =
      [{ startSec := 0, endSec := (total : ℚ) / (sr : ℚ) }] ∧
    prepareChunksModel splitOk nonSilent 0 sr minC maxC = some [] := by
  refine ⟨?_, ?_, rfl⟩
  · unfold prepareChunksModel
    rw [if_neg (by omega), if_pos hdur]
  · simp [chunkTimes]

/-- Witness for `c4_single_chunk`: five samples at one sample per second is
a five-second audio, below the 90-second default maximum. -/
theorem c4_single_chunk_witness :
    prepareChunksModel true [] 5 1 60 90 = some [(0, 5)] :=
  (c4_single_chunk true [] 5 1 60 90 (by decide) (by norm_num)).1

/-! ## C5: exact coverage by the returned chunk list -/

/-- C5: for every audio input (any oracle outcome of silence detection,
including the fixed-window fallback), the segmenter terminates and its
ordered chunk list exactly tiles the sample range `[0, total)` — first
chunk starts at 0, consecutive chunks share a boundary with no gap or
overlap, every chunk is nonempty (so start times strictly increase), and
the last chunk ends at the literal end of the audio; the recorded
per-chunk times tile `[0, duration)` likewise.  Stated for sample rates
and maximum chunk lengths of at least one (true of every real
configuration: defaults are 8kHz+ audio and 90 s). -/
theorem c5_segmenter_coverage (splitOk : Bool) (nonSilent : List (Nat × Nat))
    (total sr : Nat) (minC maxC : ℚ) (hsr : 1 ≤ sr) (hmax : 1 ≤ maxC) :
    (prepareChunksModel splitOk nonSilent total sr minC maxC).isSome = true ∧
    ∀ segs, prepareChunksModel splitOk nonSilent total sr minC maxC = some segs →
      seamless segs 0 total ∧
      seamlessSec (chunkTimes sr segs) 0 ((total : ℚ) / (sr : ℚ)) := by
  have hstep := one_le_trunc_step sr maxC hsr hmax
  have hsr0 : sr ≠ 0 := by omega
  have hsec : ∀ segs, seamless segs 0 total →
      seamlessSec (chunkTimes sr segs) 0 ((total : ℚ) / (sr : ℚ)) := by
    intro segs h
    have := seamless_chunkTimes sr (by omega) segs 0 total h
    simpa using this
  constructor
  · unfold prepareChunksModel
    by_cases h0 : total = 0
    · rw [if_pos h0]; rfl
    · rw [if_neg h0]
      by_cases hdur : (total : ℚ) / (sr : ℚ) ≤ maxC
      · rw [if_pos hdur]; rfl
      · rw [if_neg hdur]
        cases splitOk with
        | true =>
          rw [if_pos rfl]
          exact chunkLoopGo_isSome _ total sr minC maxC hstep (total + 1) 0 0 (by omega)
        | false =>
          rw [if_neg (by simp)]
          exact fixedWindowsGo_isSome total _ hstep (total + 1) 0 (by omega)
  · intro segs hsegs
    unfold prepareChunksModel at hsegs
    by_cases h0 : total = 0
    · rw [if_pos h0] at hsegs
      cases hsegs
      subst h0
      exact ⟨rfl, hsec [] rfl⟩
    · rw [if_neg h0] at hsegs
      by_cases hdur : (total : ℚ) / (sr : ℚ) ≤ maxC
      · rw [if_pos hdur] at hsegs
        cases hsegs
        have hseam : seamless [(0, total)] 0 total := ⟨rfl, by omega, rfl⟩
        exact ⟨hseam, hsec _ hseam⟩
      · rw [if_neg hdur] at hsegs
        cases splitOk with
        | true =>
          rw [if_pos rfl] at hsegs
          have hseam := chunkLoopGo_seamless _ total sr minC maxC hsr0 hstep
            (total + 1) 0 0 segs (by omega) hsegs
          exact ⟨hseam, hsec _ hseam⟩
        | false =>
          rw [if_neg (by simp)] at hsegs
          have hseam := fixedWindowsGo_seamless total _ hstep (total + 1) 0 segs
            (by omega) hsegs
          exact ⟨hseam, hsec _ hseam⟩

/-- Witness for `c5_segmenter_coverage`: a 200-sample audio at one sample
per second with no detected silence gaps. -/
theorem c5_segmenter_coverage_witness :
    (prepareChunksModel true [] 200 1 60 90).isSome = true :=
  (c5_segmenter_coverage true [] 200 1 60 90 (by decide) (by norm_num)).1

end AMS
